import Mathlib

/-!
# Verification of the chat / dataset-engine repository

Shallow embedding of the repository's core:

* `src/src/lib/tools/xlsx.ts` — the Dataset Engine (`getRange`, `updateCell`,
  `explainFormula`, `getSheet`, `normalizeCellValue`);
* `src/src/app/api/chat/route.ts` — the chat POST handler (user-message
  persistence, tool eligibility, the `updateCell` tool's confirmation gate,
  the `onFinish` assistant persistence);
* `src/src/lib/db/client.ts` — the Thread/Message Store over SQLite
  (`saveMessage`, `getMessagesByThread`, `updateMessage`, `deleteMessage`,
  `deleteMessagesAfter`) with `PRAGMA foreign_keys = ON` and the
  `messages(thread_id) REFERENCES threads(id)` schema;
* `src/src/app/api/threads/[threadId]/messages/route.ts` — the PATCH and
  DELETE message routes;
* `src/src/components/chat/ChatPage.tsx` — `generateTitleFromMessage` and the
  server-visible effects of `handleSaveEdit`.

Conventions of the embedding:

* Cell addresses are the decoded row/column coordinates (`XLSX.utils.decode_cell`
  of a canonical A1 address); `!ref` strings are modeled by their decoded
  ranges (`decode_range`).  JavaScript cell objects keyed by address string
  become a function `Addr → Option Cell`.
* The backing file `./data/example.xlsx` is modeled as `DocState := Option Workbook`
  (`none` = file missing); `XLSX.writeFile` replaces that state wholesale.
* JavaScript numbers stored in cells are modeled as integers: no arithmetic is
  ever performed on them, so any value domain with decidable equality is
  faithful.
* Fallible operations return `Except String` carrying the thrown message.
-/

namespace Spec2Proof

/-! ## Dataset Engine data model (`src/src/lib/tools/xlsx.ts`) -/

/-- A decoded cell address: `XLSX.utils.decode_cell` yields `{r, c}` with
0-based row and column. -/
structure Addr where
  r : Nat
  c : Nat
deriving DecidableEq, Repr

/-- A decoded A1 range: `decode_range` yields `{s, e}` start/end addresses. -/
structure Range where
  s : Addr
  e : Addr
deriving DecidableEq, Repr

/-- `CellValue = string | number | boolean | null` from xlsx.ts. -/
inductive CellValue where
  | s (v : String)
  | n (v : Int)
  | b (v : Bool)
  | null
deriving DecidableEq, Repr

/-- The raw value stored in a cell object's `v` field.  Reading a workbook
with `cellDates: true` can also surface `Date` objects, modeled here by the
ISO-8601 string they convert to; `vnull` models an absent/`null` `v`. -/
inductive StoredVal where
  | vs (v : String)
  | vn (v : Int)
  | vb (v : Bool)
  | vdate (iso : String)
  | vnull
deriving DecidableEq, Repr

/-- A cell object `{t, v}`: the type tag and the stored value. -/
structure Cell where
  t : String
  v : StoredVal
deriving DecidableEq, Repr

/-- A worksheet: a sparse mapping of address to cell plus the `!ref` used
range (absent or empty-string `!ref` is `none`). -/
structure Sheet where
  cells : Addr → Option Cell
  ref : Option Range

/-- A workbook: `SheetNames` is the key list of `Sheets`; one association
list models both (`SheetNames = sheets.map Prod.fst`, `Sheets[n]` is the
first entry with key `n`). -/
structure Workbook where
  sheets : List (String × Sheet)

/-- The on-disk document at `./data/example.xlsx`: `none` when the file is
missing. -/
abbrev DocState := Option Workbook

/-- The message thrown by `ensureWorkbookExists` when the file is absent. -/
def missingFileMsg : String :=
  "Missing XLSX file at ./data/example.xlsx. Add /data/example.xlsx to enable XLSX tools."

/-- First-match association lookup, i.e. `workbook.Sheets[name]`. -/
def assocGet (l : List (String × Sheet)) (key : String) : Option Sheet :=
  match l with
  | [] => none
  | (k, s) :: rest => if k = key then some s else assocGet rest key

/-- Replace the sheet stored under `key` (in-place mutation of the sheet
object reached through `workbook.Sheets[key]`). -/
def assocSet (l : List (String × Sheet)) (key : String) (v : Sheet) :
    List (String × Sheet) :=
  match l with
  | [] => []
  | (k, s) :: rest =>
      if k = key then (key, v) :: rest else (k, s) :: assocSet rest key v

/-- The resolution `sheetName ?? workbook.SheetNames[0] ?? "Sheet1"` used by
`updateCell` and by `getRange`'s result field. -/
def resolvedName (wb : Workbook) (sheetName : Option String) : String :=
  match sheetName with
  | some n => n
  | none => ((wb.sheets.map Prod.fst).head?).getD "Sheet1"

/-- `getSheet(workbook, sheetName?)`: `targetName = sheetName ?? SheetNames[0]`;
a nullish or empty (falsy) target throws "Workbook has no sheets."; an unknown
name throws "Sheet not found: ...". -/
def getSheet (wb : Workbook) (sheetName : Option String) : Except String Sheet :=
  match (match sheetName with
         | some n => some n
         | none => (wb.sheets.map Prod.fst).head?) with
  | none => .error "Workbook has no sheets."
  | some target =>
      if target = "" then .error "Workbook has no sheets."
      else
        match assocGet wb.sheets target with
        | none => .error ("Sheet not found: " ++ target)
        | some s => .ok s

/-- `normalizeCellValue(cell?)`: absent cell or absent `v` is `null`; a `Date`
becomes its ISO string; numbers, strings and booleans pass through. -/
def normalizeCellValue (cell : Option Cell) : CellValue :=
  match cell with
  | none => .null
  | some c =>
      match c.v with
      | .vnull => .null
      | .vdate iso => .s iso
      | .vn v => .n v
      | .vs v => .s v
      | .vb v => .b v

/-- The inclusive index list of one loop `for (i = lo; i <= hi; i += 1)`. -/
def natRangeIncl (lo hi : Nat) : List Nat :=
  (List.range (hi + 1 - lo)).map (fun i => lo + i)

/-- `RangeResult` from xlsx.ts (the `range` echo field carries the decoded
range). -/
structure RangeResult where
  sheet : String
  range : Range
  values : List (List CellValue)
deriving Repr

/-- `getRange(range, sheetName?)`: load the workbook, resolve the sheet,
iterate the decoded range row-major and normalize every cell. -/
def getRange (rg : Range) (sheetName : Option String) (doc : DocState) :
    Except String RangeResult :=
  match doc with
  | none => .error missingFileMsg
  | some wb =>
      match getSheet wb sheetName with
      | .error e => .error e
      | .ok sheet =>
          let values :=
            (natRangeIncl rg.s.r rg.e.r).map (fun row =>
              (natRangeIncl rg.s.c rg.e.c).map (fun col =>
                normalizeCellValue (sheet.cells ⟨row, col⟩)))
          .ok { sheet := resolvedName wb sheetName, range := rg, values := values }

/-- `UpdateCellResult` from xlsx.ts. -/
structure UpdateCellResult where
  sheet : String
  cell : Addr
  previous : CellValue
  updated : CellValue
deriving Repr

/-- The cell type tag chosen by `updateCell`: number → "n", boolean → "b",
everything else → "s". -/
def cellTypeOf (v : CellValue) : String :=
  match v with
  | .n _ => "n"
  | .b _ => "b"
  | _ => "s"

/-- The stored form of a written value. -/
def storedOf (v : CellValue) : StoredVal :=
  match v with
  | .s x => .vs x
  | .n x => .vn x
  | .b x => .vb x
  | .null => .vnull

/-- The four sequential bound-extension conditionals of `updateCell`. -/
def extendRange (rg : Range) (a : Addr) : Range :=
  let rg1 := if a.r < rg.s.r then { rg with s := { rg.s with r := a.r } } else rg
  let rg2 := if a.c < rg1.s.c then { rg1 with s := { rg1.s with c := a.c } } else rg1
  let rg3 := if a.r > rg2.e.r then { rg2 with e := { rg2.e with r := a.r } } else rg2
  if a.c > rg3.e.c then { rg3 with e := { rg3.e with c := a.c } } else rg3

/-- The sheet after `updateCell` writes `value` at `cell`: `null` deletes the
cell (leaving `!ref` alone); any other value is stored tagged by type and the
`!ref` bound is extended to cover the address. -/
def updatedSheet (sheet : Sheet) (cell : Addr) (value : CellValue) : Sheet :=
  match value with
  | .null =>
      { sheet with cells := fun x => if x = cell then none else sheet.cells x }
  | v =>
      let rg := sheet.ref.getD { s := cell, e := cell }
      { cells := fun x => if x = cell then some ⟨cellTypeOf v, storedOf v⟩
                          else sheet.cells x,
        ref := some (extendRange rg cell) }

/-- `updateCell(cell, value, sheetName?)` as a state transition on the backing
file: load, resolve the sheet, capture the previous value, apply
`updatedSheet`, then serialize the whole workbook back.  An error leaves the
file untouched (the throw happens before `writeFile`). -/
def updateCell (cell : Addr) (value : CellValue) (sheetName : Option String)
    (doc : DocState) : DocState × Except String UpdateCellResult :=
  match doc with
  | none => (none, .error missingFileMsg)
  | some wb =>
      let resolved := resolvedName wb sheetName
      match getSheet wb (some resolved) with
      | .error e => (some wb, .error e)
      | .ok sheet =>
          let previous := normalizeCellValue (sheet.cells cell)
          let wb' : Workbook := ⟨assocSet wb.sheets resolved (updatedSheet sheet cell value)⟩
          (some wb',
           .ok { sheet := resolved, cell := cell, previous := previous, updated := value })

/-- `FormulaResult` from xlsx.ts (`explainFormula`). -/
structure FormulaResult where
  sheet : String
  cell : Addr
  formula : Option String
  explanation : String
deriving Repr

/-! ## Chat route (`src/src/app/api/chat/route.ts`) -/

/-- Message roles, as in `src/src/lib/db/client.ts`. -/
inductive MessageRole where
  | system
  | user
  | assistant
  | tool
deriving DecidableEq, Repr

/-- Duck-typed UI message content: either a plain string or a structured
parts array (anything that is not a string, for `typeof content === "string"`
checks). -/
inductive UiContent where
  | text (s : String)
  | parts (ps : List String)
deriving DecidableEq, Repr

/-- An incoming `UIMessage` as the route inspects it. -/
structure UiMessage where
  role : MessageRole
  content : UiContent
deriving DecidableEq, Repr

/-- JavaScript whitespace recognized by `String.prototype.trim`. -/
def isJsWhitespace (c : Char) : Bool :=
  c == ' ' || c == '\t' || c == '\n' || c == '\r' || c == '\x0b' || c == '\x0c' ||
  c == '\u00A0' || c == '\uFEFF' || c == '\u1680' ||
  (0x2000 ≤ c.val && c.val ≤ 0x200A) ||
  c == '\u2028' || c == '\u2029' || c == '\u202F' || c == '\u205F' || c == '\u3000'

/-- `String.prototype.trim` on a character list. -/
def jsTrim (l : List Char) : List Char :=
  ((l.dropWhile isJsWhitespace).reverse.dropWhile isJsWhitespace).reverse

/-- `s.trim()`. -/
def jsTrimStr (s : String) : String :=
  String.mk (jsTrim s.data)

/-- A persisted chat record at the granularity the orchestrator claims speak
about (`saveMessage` is called with a role and a content string; ids and
timestamps are generated inside the store). -/
structure ChatRecord where
  role : MessageRole
  content : String
deriving DecidableEq, Repr

/-- The pre-generation persistence of the chat POST handler: after the
`threadId` validation, the last element of `messages` is saved as a user
message exactly when its role is `"user"` and its content is a plain string
(route.ts lines 75-100). -/
def persistIncomingUserMessage (threadId : Option String)
    (uiMessages : List UiMessage) (store : List ChatRecord) : List ChatRecord :=
  match threadId.map jsTrimStr with
  | none => store
  | some tid =>
      if tid = "" then store
      else
        match uiMessages.getLast? with
        | none => store
        | some m =>
            if m.role = .user then
              match m.content with
              | .text s => store ++ [⟨.user, s⟩]
              | .parts _ => store
            else store

/-- `shouldUseTools`: the last message is a user message whose string content
contains the `@` marker (route.ts lines 113-117). -/
def shouldUseTools (uiMessages : List UiMessage) : Bool :=
  match uiMessages.getLast? with
  | none => false
  | some m =>
      m.role == .user &&
      (match m.content with
       | .text s => s.data.contains '@'
       | .parts _ => false)

/-- The names of the full tool set defined by the route. -/
def fullToolNames : List String :=
  ["confirmAction", "getRange", "updateCell", "openTable", "highlightCells",
   "explainFormula"]

/-- The `tools` argument handed to `streamText`: the full tool set when
`shouldUseTools`, otherwise `undefined` (route.ts lines 119-330 and 389). -/
def toolsForTurn (uiMessages : List UiMessage) : Option (List String) :=
  if shouldUseTools uiMessages then some fullToolNames else none

/-- The result value produced by the `updateCell` tool's `execute`. -/
inductive UpdateToolResult where
  | needsConfirmation (sheet : Option String) (cell : Addr) (value : CellValue)
  | updated (res : UpdateCellResult)
  | error (msg : String)
deriving Repr

/-- Arguments of the `updateCell` tool per its JSON schema: `confirmed` is an
optional boolean, so its possible values are `true`, `false` and absent. -/
structure UpdateCellArgs where
  sheet : Option String
  cell : Addr
  value : CellValue
  confirmed : Option Bool
deriving Repr

/-- The `updateCell` tool's `execute` (route.ts lines 193-220): when
`!args.confirmed` (i.e. `confirmed` is anything but exactly `true`) it returns
`needs_confirmation` without touching the Dataset Engine; otherwise it runs
`updateCell`, catching engine errors as structured error results. -/
def updateCellToolExecute (args : UpdateCellArgs) (doc : DocState) :
    UpdateToolResult × DocState :=
  if args.confirmed = some true then
    match updateCell args.cell args.value args.sheet doc with
    | (doc', .ok res) => (.updated res, doc')
    | (doc', .error e) => (.error e, doc')
  else
    (.needsConfirmation args.sheet args.cell args.value, doc)

/-- Outcome of one streaming turn: `streamText` either finishes with the
accumulated text (invoking `onFinish`) or fails. -/
inductive TurnOutcome where
  | success (text : String)
  | failure
deriving DecidableEq, Repr

/-- The `onFinish` callback (route.ts lines 390-406): on successful completion
an assistant message is saved unless the accumulated text trims to empty. -/
def persistOnFinish (outcome : TurnOutcome) (store : List ChatRecord) :
    List ChatRecord :=
  match outcome with
  | .failure => store
  | .success text =>
      if (jsTrimStr text).length = 0 then store
      else store ++ [⟨.assistant, text⟩]

/-! ## Thread/Message Store (`src/src/lib/db/client.ts`)

The store is SQLite opened with `PRAGMA foreign_keys = ON`; the `messages`
table has `FOREIGN KEY (thread_id) REFERENCES threads(id) ON DELETE CASCADE`
and `id TEXT PRIMARY KEY`.  The tables are modeled as row lists in insertion
(rowid) order. -/

/-- A `threads` table row. -/
structure ThreadRow where
  id : String
  title : String
  created_at : Nat
deriving DecidableEq, Repr

/-- A `messages` table row (`created_at` is the `Date.now()` millisecond
timestamp). -/
structure Msg where
  id : String
  thread_id : String
  role : MessageRole
  content : String
  created_at : Nat
deriving DecidableEq, Repr

/-- The SQLite database state. -/
structure DbState where
  threads : List ThreadRow
  messages : List Msg
deriving DecidableEq, Repr

/-- `saveMessage(input)` as a state transition: `INSERT INTO messages ...`
under the schema's constraints.  With `PRAGMA foreign_keys = ON` the insert
throws a referential error when no thread row carries `threadId`, and a
primary-key error when the generated id already exists; either error leaves
the table unchanged.  `newId` stands for `crypto.randomUUID()` and `now` for
`Date.now()`. -/
def saveMessage (st : DbState) (threadId : String) (role : MessageRole)
    (content : String) (newId : String) (now : Nat) : DbState × Except String Msg :=
  if st.threads.any (fun t => t.id == threadId) then
    if st.messages.any (fun m => m.id == newId) then
      (st, .error "UNIQUE constraint failed: messages.id")
    else
      let m : Msg := ⟨newId, threadId, role, content, now⟩
      ({ st with messages := st.messages ++ [m] }, .ok m)
  else
    (st, .error "FOREIGN KEY constraint failed")

/-- The row order produced by
`SELECT ... WHERE thread_id = ? ORDER BY created_at ASC LIMIT ? OFFSET ?`:
rows of the thread sorted by `created_at`; SQLite scans the
`(thread_id, created_at)` index, which breaks ties by ascending rowid, i.e.
the sort is stable with respect to insertion order. -/
def getMessagesByThread (st : DbState) (threadId : String)
    (limit : Nat := 200) (offset : Nat := 0) : List Msg :=
  ((((st.messages.filter (fun m => m.thread_id == threadId)).insertionSort
      (fun a b => a.created_at ≤ b.created_at)).drop offset).take limit)

/-- `updateMessage(input)`: `UPDATE messages SET content = ? WHERE id = ?`. -/
def updateMessage (st : DbState) (id content : String) : DbState :=
  { st with
    messages := st.messages.map (fun m =>
      if m.id == id then { m with content := content } else m) }

/-- `deleteMessage(messageId)`: `DELETE FROM messages WHERE id = ?`. -/
def deleteMessage (st : DbState) (messageId : String) : DbState :=
  { st with messages := st.messages.filter (fun m => !(m.id == messageId)) }

/-- `deleteMessagesAfter(threadId, createdAt)`:
`DELETE FROM messages WHERE thread_id = ? AND created_at > ?` (exclusive lower
bound; matching zero rows is not an error).  Defined in the store module, but
no route handler ever invokes it. -/
def deleteMessagesAfter (st : DbState) (threadId : String) (createdAt : Nat) :
    DbState :=
  { st with
    messages := st.messages.filter (fun m =>
      !(m.thread_id == threadId && createdAt < m.created_at)) }

/-! ## Message routes (`src/src/app/api/threads/[threadId]/messages/route.ts`) -/

/-- The JSON body of a DELETE request as the client may send it.  The handler
parses it as `{ id?: string }` and never reads `afterId`. -/
structure DeleteBody where
  id : Option String
  afterId : Option String
deriving DecidableEq, Repr

/-- The DELETE handler (messages route lines 51-58): requires `body.id`,
answering 400 without any deletion when it is absent; otherwise deletes that
single message. -/
def messagesDeleteRoute (body : DeleteBody) (st : DbState) : DbState × Nat :=
  match body.id with
  | none => (st, 400)
  | some mid => (deleteMessage st mid, 200)

/-- The JSON body of a PATCH request. -/
structure PatchBody where
  id : Option String
  content : Option String
deriving DecidableEq, Repr

/-- The PATCH handler (messages route lines 39-49): requires `id` and a string
`content`, else 400; otherwise replaces the message content. -/
def messagesPatchRoute (body : PatchBody) (st : DbState) : DbState × Nat :=
  match body.id, body.content with
  | some mid, some content => (updateMessage st mid content, 200)
  | _, _ => (st, 400)

/-- The persisted-store effect of `handleSaveEdit`
(`src/src/components/chat/ChatPage.tsx` lines 241-306): PATCH the edited
content; stop if that fails; then, when the edited message was found in the
local records, send DELETE with body `{ afterId: editedRecord.id }` — a body
whose `id` field is absent. -/
def handleSaveEditStoreEffect (editedId newContent : String)
    (recordFound : Bool) (st : DbState) : DbState :=
  let patched := messagesPatchRoute ⟨some editedId, some newContent⟩ st
  if patched.2 ≠ 200 then patched.1
  else if recordFound then
    (messagesDeleteRoute ⟨none, some editedId⟩ patched.1).1
  else patched.1

/-! ## Title Summarizer (`ChatPage.tsx`, `generateTitleFromMessage`) -/

/-- Sentence terminators recognized by the title regexes. -/
def isTerm (c : Char) : Bool :=
  c == '.' || c == '!' || c == '?'

/-- `title.lastIndexOf(" ")` expressed as the position of the last space,
`none` when absent (JavaScript returns -1 there, and the caller only acts on
strictly positive indices). -/
def lastSpacePos : List Char → Option Nat
  | [] => none
  | c :: rest =>
      match lastSpacePos rest with
      | some i => some (i + 1)
      | none => if c = ' ' then some 0 else none

/-- Stage 1 of `generateTitleFromMessage` (ChatPage.tsx line 140):
`userMessage.replace(/\\n/g, " ").trim()`. -/
def titleClean (userMessage : String) : List Char :=
  jsTrim (userMessage.data.map (fun c => if c = '\n' then ' ' else c))

/-- Stage 2 (lines 143-146): when `^[^.!?]*[.!?]` matches, keep the match
with its single trailing terminator removed, trimmed. -/
def titleSentence (t : List Char) : List Char :=
  if t.any isTerm then jsTrim (t.takeWhile (fun c => !isTerm c)) else t

/-- Stage 3 (lines 149-156): when longer than 50 characters, take the first
50, trim, and back off to the last space when it sits at a positive index. -/
def titleCap (t : List Char) : List Char :=
  if 50 < t.length then
    let u := jsTrim (t.take 50)
    match lastSpacePos u with
    | some i => if 0 < i then u.take i else u
    | none => u
  else t

/-- `generateTitleFromMessage(userMessage)` (ChatPage.tsx lines 138-159):
the three stages in sequence, with the `title || "Chat"` fallback. -/
def generateTitleFromMessage (userMessage : String) : String :=
  let t2 := titleCap (titleSentence (titleClean userMessage))
  if t2.isEmpty then "Chat" else String.mk t2

/-! ## Sample data used by witnesses -/

/-- An empty worksheet. -/
def sampleSheet : Sheet := ⟨fun _ => none, none⟩

/-- A one-sheet workbook. -/
def sampleWb : Workbook := ⟨[("Sheet1", sampleSheet)]⟩

/-- A present backing document. -/
def sampleDoc : DocState := some sampleWb

/-! ## Claim C1 — the `updateCell` confirmation gate -/

/-- C1: an `updateCell` tool invocation whose `confirmed` argument is not
exactly `true` returns a `needs_confirmation` result and leaves the workbook
document completely unchanged (same `DocState`, hence the same cell values,
used ranges and serialized content); a change of the document can only come
from a call with `confirmed === true`. -/
theorem cellUpdate_confirmation_gate :
    (∀ (args : UpdateCellArgs) (doc : DocState), args.confirmed ≠ some true →
      (updateCellToolExecute args doc).1
          = .needsConfirmation args.sheet args.cell args.value ∧
      (updateCellToolExecute args doc).2 = doc) ∧
    (∀ (args : UpdateCellArgs) (doc : DocState),
      (updateCellToolExecute args doc).2 ≠ doc → args.confirmed = some true) := by
  constructor
  · intro args doc h
    unfold updateCellToolExecute
    rw [if_neg h]
    exact ⟨rfl, rfl⟩
  · intro args doc h
    by_cases hc : args.confirmed = some true
    · exact hc
    · exfalso
      apply h
      unfold updateCellToolExecute
      rw [if_neg hc]

/-- Witness for C1 at a concrete unconfirmed call on a concrete document. -/
theorem cellUpdate_confirmation_gate_witness :
    ((⟨none, ⟨0, 0⟩, CellValue.s "x", none⟩ : UpdateCellArgs).confirmed ≠ some true) ∧
    ((updateCellToolExecute ⟨none, ⟨0, 0⟩, CellValue.s "x", none⟩ sampleDoc).1
        = .needsConfirmation none ⟨0, 0⟩ (CellValue.s "x") ∧
     (updateCellToolExecute ⟨none, ⟨0, 0⟩, CellValue.s "x", none⟩ sampleDoc).2
        = sampleDoc) :=
  ⟨by decide,
   cellUpdate_confirmation_gate.1 ⟨none, ⟨0, 0⟩, CellValue.s "x", none⟩ sampleDoc
     (by decide)⟩

/-! ## Claim C5 — assistant persistence on finish -/

/-- C5: an assistant message is persisted for a turn exactly when the turn
completes successfully with accumulated text that is non-empty after
trimming; empty or whitespace-only text, and failed turns, record nothing. -/
theorem assistant_persisted_iff_nonempty_text :
    ∀ (o : TurnOutcome) (st : List ChatRecord),
      ((∃ m, persistOnFinish o st = st ++ [m] ∧ m.role = .assistant) ↔
        (∃ t, o = .success t ∧ (jsTrimStr t).length ≠ 0)) ∧
      (∀ t, o = .success t → (jsTrimStr t).length ≠ 0 →
        persistOnFinish o st = st ++ [⟨.assistant, t⟩]) ∧
      (∀ t, o = .success t → (jsTrimStr t).length = 0 →
        persistOnFinish o st = st) ∧
      (o = .failure → persistOnFinish o st = st) := by
  intro o st
  cases o with
  | failure =>
      refine ⟨?_, ?_, ?_, ?_⟩
      · constructor
        · rintro ⟨m, hm, -⟩
          exfalso
          have := congrArg List.length hm
          simp [persistOnFinish] at this
        · rintro ⟨t, ht, -⟩
          exact absurd ht (by simp)
      · intro t ht
        exact absurd ht (by simp)
      · intro t ht
        exact absurd ht (by simp)
      · intro _
        rfl
  | success text =>
      by_cases he : (jsTrimStr text).length = 0
      · refine ⟨?_, ?_, ?_, ?_⟩
        · constructor
          · rintro ⟨m, hm, -⟩
            exfalso
            have h1 : persistOnFinish (.success text) st = st := by
              simp [persistOnFinish, he]
            rw [h1] at hm
            have := congrArg List.length hm
            simp at this
          · rintro ⟨t, ht, hne⟩
            cases ht
            exact absurd he hne
        · intro t ht hne
          cases ht
          exact absurd he hne
        · intro t ht _
          cases ht
          simp [persistOnFinish, he]
        · intro h
          cases h
      · refine ⟨?_, ?_, ?_, ?_⟩
        · constructor
          · intro _
            exact ⟨text, rfl, he⟩
          · rintro ⟨t, ht, -⟩
            cases ht
            exact ⟨⟨.assistant, text⟩, by simp [persistOnFinish, he], rfl⟩
        · intro t ht _
          cases ht
          simp [persistOnFinish, he]
        · intro t ht h0
          cases ht
          exact absurd h0 he
        · intro h
          cases h

/-- Witness for C5: a successful turn with the text "hi" appends exactly one
assistant record. -/
theorem assistant_persisted_iff_nonempty_text_witness :
    ((jsTrimStr "hi").length ≠ 0) ∧
    persistOnFinish (.success "hi") [] = [⟨.assistant, "hi"⟩] :=
  ⟨by decide,
   (assistant_persisted_iff_nonempty_text (.success "hi") []).2.1 "hi" rfl (by decide)⟩

/-! ## Claim C6 — tool eligibility -/

/-- C6: the full tool set is attached to a turn exactly when the last message
is a user message with plain-string content containing the `@` marker;
otherwise the turn runs with no tools. -/
theorem tools_iff_marker :
    ∀ (msgs : List UiMessage),
      (toolsForTurn msgs = some fullToolNames ↔
        ∃ s, msgs.getLast? = some ⟨.user, .text s⟩ ∧ s.data.contains '@' = true) ∧
      (toolsForTurn msgs = some fullToolNames ∨ toolsForTurn msgs = none) := by
  intro msgs
  unfold toolsForTurn shouldUseTools
  constructor
  · cases hl : msgs.getLast? with
    | none => simp
    | some m =>
        cases m with
        | mk role content =>
            cases role <;> cases content <;> simp
  · split <;> simp

/-- Witness for C6: a single user message containing the marker enables the
full tool set. -/
theorem tools_iff_marker_witness :
    toolsForTurn [⟨.user, .text "read @Sheet1!A1:B2"⟩] = some fullToolNames :=
  (tools_iff_marker [⟨.user, .text "read @Sheet1!A1:B2"⟩]).1.mpr
    ⟨"read @Sheet1!A1:B2", rfl, by decide⟩

/-! ## Claim C10 — frame effect of the chat POST persistence phase -/

/-- C10: before generation, a chat POST inserts at most one message: the last
element of the incoming array, and only when it is a user message with
plain-string content; every other shape leaves the store unchanged. -/
theorem chat_post_frame_effect :
    ∀ (tid : Option String) (msgs : List UiMessage) (st : List ChatRecord),
      ∃ app : List ChatRecord,
        persistIncomingUserMessage tid msgs st = st ++ app ∧
        app.length ≤ 1 ∧
        (∀ m ∈ app, ∃ s, msgs.getLast? = some ⟨.user, .text s⟩ ∧ m = ⟨.user, s⟩) ∧
        (∀ t, tid = some t → jsTrimStr t ≠ "" →
          ∀ s, msgs.getLast? = some ⟨.user, .text s⟩ →
            persistIncomingUserMessage tid msgs st = st ++ [⟨.user, s⟩]) := by
  intro tid msgs st
  unfold persistIncomingUserMessage
  cases tid with
  | none =>
      refine ⟨[], by simp, by simp, by simp, ?_⟩
      intro t ht
      cases ht
  | some t =>
      by_cases hz : jsTrimStr t = ""
      · refine ⟨[], by simp [hz], by simp, by simp, ?_⟩
        intro t' ht' hne
        cases ht'
        exact absurd hz hne
      · cases hl : msgs.getLast? with
        | none =>
            refine ⟨[], by simp [hz], by simp, by simp, ?_⟩
            intro t' ht' _ s hs
            cases hs
        | some m =>
            cases m with
            | mk role content =>
                cases role with
                | user =>
                    cases content with
                    | text s =>
                        refine ⟨[⟨.user, s⟩], by simp [hz], by simp, ?_, ?_⟩
                        · intro m hm
                          simp at hm
                          exact ⟨s, rfl, hm⟩
                        · intro t' ht' _ s' hs'
                          cases ht'
                          have hss : s = s' := by
                            simpa using hs'
                          subst hss
                          simp [hz]
                    | parts ps =>
                        refine ⟨[], by simp [hz], by simp, by simp, ?_⟩
                        intro t' ht' _ s' hs'
                        simp at hs'
                | system =>
                    refine ⟨[], by simp [hz], by simp, by simp, ?_⟩
                    intro t' ht' _ s' hs'
                    simp at hs'
                | assistant =>
                    refine ⟨[], by simp [hz], by simp, by simp, ?_⟩
                    intro t' ht' _ s' hs'
                    simp at hs'
                | tool =>
                    refine ⟨[], by simp [hz], by simp, by simp, ?_⟩
                    intro t' ht' _ s' hs'
                    simp at hs'

/-- Witness for C10: a concrete request with a user-text last element appends
exactly that message. -/
theorem chat_post_frame_effect_witness :
    persistIncomingUserMessage (some "t1") [⟨.assistant, .text "old"⟩, ⟨.user, .text "Hi"⟩] []
      = [⟨.user, "Hi"⟩] := by
  obtain ⟨app, h1, h2, h3, h4⟩ :=
    chat_post_frame_effect (some "t1") [⟨.assistant, .text "old"⟩, ⟨.user, .text "Hi"⟩] []
  have := h4 "t1" rfl (by decide) "Hi" (by decide)
  simpa using this

/-! ## Claim C7 — the Title Summarizer

The claim asserts: sentence branch = text up through the first terminator
with the terminator dropped, and only the no-terminator branch is subject to
the 50-character cap with whitespace back-off so that no word is split.  In
the code the cap is applied after BOTH branches, and the back-off happens
only when the capped text contains a space at a positive index. -/

/-- The characters strictly before the first sentence terminator, or `none`
when the text contains no terminator. -/
def charsBeforeFirstTerminator : List Char → Option (List Char)
  | [] => none
  | c :: rest =>
      if isTerm c then some []
      else (charsBeforeFirstTerminator rest).map (fun pre => c :: pre)

/-- Back off to the last whitespace boundary when it sits at a positive
index; otherwise keep the text unchanged. -/
def backOffAtLastSpace (u : List Char) : List Char :=
  match lastSpacePos u with
  | some i => if 0 < i then u.take i else u
  | none => u

/-- The amended claim, written as a specification: strip newlines and trim;
if a terminator appears the candidate is the (trimmed) text strictly before
the first terminator, otherwise the whole cleaned text; a candidate longer
than 50 characters — in either branch — is cut to its first 50 characters,
trimmed, and backed off to the last space when one occurs at a positive
index; an empty result falls back to "Chat". -/
def titleAmendedSpec (s : String) : String :=
  let cleaned := jsTrim (s.data.map (fun c => if c = '\n' then ' ' else c))
  let candidate :=
    match charsBeforeFirstTerminator cleaned with
    | some pre => jsTrim pre
    | none => cleaned
  let capped :=
    if candidate.length ≤ 50 then candidate
    else backOffAtLastSpace (jsTrim (candidate.take 50))
  if capped = [] then "Chat" else String.mk capped

lemma charsBeforeFirstTerminator_eq (l : List Char) :
    charsBeforeFirstTerminator l =
      if l.any isTerm then some (l.takeWhile (fun c => !isTerm c)) else none := by
  induction l with
  | nil => simp [charsBeforeFirstTerminator]
  | cons c rest ih =>
      by_cases h : isTerm c
      · simp [charsBeforeFirstTerminator, h, List.takeWhile_cons]
      · simp only [charsBeforeFirstTerminator, h, if_false, ih, List.any_cons,
          Bool.false_or, List.takeWhile_cons]
        by_cases h2 : rest.any isTerm <;> simp [h2, h]

lemma jsTrim_length_le (l : List Char) : (jsTrim l).length ≤ l.length := by
  unfold jsTrim
  calc ((l.dropWhile isJsWhitespace).reverse.dropWhile isJsWhitespace).reverse.length
      = ((l.dropWhile isJsWhitespace).reverse.dropWhile isJsWhitespace).length := by
        simp
    _ ≤ (l.dropWhile isJsWhitespace).reverse.length :=
        (List.dropWhile_sublist _).length_le
    _ = (l.dropWhile isJsWhitespace).length := by simp
    _ ≤ l.length := (List.dropWhile_sublist _).length_le

lemma titleSentence_eq_spec (t : List Char) :
    (match charsBeforeFirstTerminator t with
     | some pre => jsTrim pre
     | none => t) = titleSentence t := by
  rw [charsBeforeFirstTerminator_eq]
  unfold titleSentence
  by_cases h : t.any isTerm <;> simp [h]

lemma titleCap_eq_spec (t : List Char) :
    (if t.length ≤ 50 then t else backOffAtLastSpace (jsTrim (t.take 50))) =
      titleCap t := by
  unfold titleCap backOffAtLastSpace
  by_cases h : 50 < t.length
  · rw [if_neg (by omega), if_pos h]
  · rw [if_pos (by omega), if_neg h]

lemma backOffAtLastSpace_length_le (u : List Char) :
    (backOffAtLastSpace u).length ≤ u.length := by
  unfold backOffAtLastSpace
  cases hsp : lastSpacePos u with
  | none => exact le_refl _
  | some i =>
      dsimp only
      split
      · exact (List.take_sublist _ _).length_le
      · exact le_refl _

lemma titleCap_le_fifty (t : List Char) : (titleCap t).length ≤ 50 := by
  rw [← titleCap_eq_spec]
  split
  · omega
  · have h1 := backOffAtLastSpace_length_le (jsTrim (t.take 50))
    have h2 := jsTrim_length_le (t.take 50)
    have h3 : (t.take 50).length ≤ 50 := by simp
    omega

/-- C7 counterexample: on a 60-character single-word sentence
("aaa…a." with sixty a's), the claim predicts the full 60-character sentence
text (terminator dropped), but `generateTitleFromMessage` returns only its
first 50 characters. -/
theorem generateTitle_counterexample :
    generateTitleFromMessage (String.mk (List.replicate 60 'a' ++ ['.'])) =
      String.mk (List.replicate 50 'a') ∧
    String.mk (List.replicate 50 'a') ≠ String.mk (List.replicate 60 'a') := by
  constructor
  · decide
  · decide

/-- C7 amended: the title derivation strips newlines and surrounding
whitespace; the candidate is the trimmed text up to (excluding) the first
sentence terminator when one appears, else the whole cleaned text; the
50-character cap with last-space back-off (applied only when a space occurs
at a positive index, otherwise splitting mid-word) applies to BOTH branches;
an empty result yields "Chat"; the result never exceeds 50 characters; and
the claim's example still returns "Hello, how are you today". -/
theorem generateTitle_amended :
    (∀ s, generateTitleFromMessage s = titleAmendedSpec s) ∧
    generateTitleFromMessage "Hello, how are you today? I have a question." =
      "Hello, how are you today" ∧
    (∀ s, (generateTitleFromMessage s).length ≤ 50) := by
  refine ⟨?_, by decide, ?_⟩
  · intro s
    simp only [generateTitleFromMessage, titleAmendedSpec, titleClean]
    rw [titleSentence_eq_spec, titleCap_eq_spec]
    simp [List.isEmpty_iff]
  · intro s
    unfold generateTitleFromMessage
    have hcap : (titleCap (titleSentence (titleClean s))).length ≤ 50 :=
      titleCap_le_fifty _
    dsimp only
    split
    · decide
    · simpa using hcap

/-! ## Claim C2 — the edit flow's causal truncation (code bug)

`handleSaveEdit` sends `DELETE { afterId: editedRecord.id }`, but the DELETE
handler of the messages route only reads `body.id` and answers 400 without
touching the store when it is absent; `deleteMessagesAfter` exists in the
store module yet is never called by any route.  So after an edit, messages
created after the edited one are still persisted. -/

/-- One thread with a user message (created_at 1) and a following assistant
message (created_at 2). -/
def editDemoState : DbState :=
  ⟨[⟨"t1", "Chat", 0⟩],
   [⟨"m1", "t1", .user, "Hi", 1⟩, ⟨"m2", "t1", .assistant, "Hello", 2⟩]⟩

/-- C2 evaluated at the failing input: the truncation request (body carrying
only `afterId`) is answered 400 with the store unchanged, and after the whole
edit flow the later assistant message `m2` (created_at 2 > 1) is still
persisted — contradicting the claim that every message with `created_at`
strictly greater than the edited message's is deleted. -/
theorem edit_flow_does_not_truncate :
    (messagesDeleteRoute ⟨none, some "m1"⟩ (updateMessage editDemoState "m1" "Hi again")
        = (updateMessage editDemoState "m1" "Hi again", 400)) ∧
    handleSaveEditStoreEffect "m1" "Hi again" true editDemoState =
      ⟨[⟨"t1", "Chat", 0⟩],
       [⟨"m1", "t1", .user, "Hi again", 1⟩, ⟨"m2", "t1", .assistant, "Hello", 2⟩]⟩ ∧
    (∃ m ∈ (handleSaveEditStoreEffect "m1" "Hi again" true editDemoState).messages,
      m.thread_id = "t1" ∧ 1 < m.created_at) ∧
    deleteMessagesAfter editDemoState "t1" 1 =
      ⟨[⟨"t1", "Chat", 0⟩], [⟨"m1", "t1", .user, "Hi", 1⟩]⟩ := by
  refine ⟨by decide, by decide, ?_, by decide⟩
  exact ⟨⟨"m2", "t1", .assistant, "Hello", 2⟩, by decide, by decide, by decide⟩

/-! ## Claim C9 — `saveMessage` referential integrity -/

/-- C9: with `PRAGMA foreign_keys = ON` and the messages → threads foreign
key, `saveMessage` into a non-existent thread fails with a referential error
and inserts no row; into an existing thread (with a fresh generated id) it
succeeds and returns the persisted message. -/
theorem saveMessage_referential_integrity :
    ∀ (st : DbState) (tid : String) (role : MessageRole) (content nid : String)
      (now : Nat),
      ((∀ t ∈ st.threads, t.id ≠ tid) →
        saveMessage st tid role content nid now =
          (st, .error "FOREIGN KEY constraint failed")) ∧
      ((∃ t ∈ st.threads, t.id = tid) → (∀ m ∈ st.messages, m.id ≠ nid) →
        saveMessage st tid role content nid now =
          ({ st with messages := st.messages ++ [⟨nid, tid, role, content, now⟩] },
            .ok ⟨nid, tid, role, content, now⟩)) := by
  intro st tid role content nid now
  constructor
  · intro h
    unfold saveMessage
    have hc : st.threads.any (fun t => t.id == tid) = false := by
      simp only [List.any_eq_false, beq_iff_eq]
      intro t ht
      exact h t ht
    rw [hc]
    simp
  · rintro ⟨t, ht, rfl⟩ hfresh
    unfold saveMessage
    have hc : st.threads.any (fun x => x.id == t.id) = true := by
      simp only [List.any_eq_true, beq_iff_eq]
      exact ⟨t, ht, rfl⟩
    rw [hc]
    have hm : st.messages.any (fun m => m.id == nid) = false := by
      simp only [List.any_eq_false, beq_iff_eq]
      exact hfresh
    rw [hm]
    simp

/-- Witness for C9: both branches at concrete stores. -/
theorem saveMessage_referential_integrity_witness :
    (saveMessage ⟨[], []⟩ "t1" .user "Hi" "m1" 5 =
      (⟨[], []⟩, .error "FOREIGN KEY constraint failed")) ∧
    (saveMessage ⟨[⟨"t1", "Chat", 0⟩], []⟩ "t1" .user "Hi" "m1" 5 =
      (⟨[⟨"t1", "Chat", 0⟩], [⟨"m1", "t1", .user, "Hi", 5⟩]⟩,
        .ok ⟨"m1", "t1", .user, "Hi", 5⟩)) :=
  ⟨(saveMessage_referential_integrity ⟨[], []⟩ "t1" .user "Hi" "m1" 5).1
      (by decide),
   (saveMessage_referential_integrity ⟨[⟨"t1", "Chat", 0⟩], []⟩ "t1" .user "Hi" "m1" 5).2
      ⟨⟨"t1", "Chat", 0⟩, by decide, rfl⟩ (by decide)⟩

/-! ## Claim C8 — `listMessages` ordering -/

/-- C8: `saveMessage` stamps rows with `Date.now()`, so rows of a thread
carry non-decreasing `created_at` in insertion (rowid) order; under that
clock hypothesis `getMessagesByThread` (the stable `ORDER BY created_at ASC`
with `LIMIT`/`OFFSET`) returns exactly the thread's rows in insertion order,
and the returned list is non-decreasing in `created_at`. -/
theorem listMessages_insertion_order :
    ∀ (st : DbState) (tid : String) (limit offset : Nat),
      (st.messages.filter (fun m => m.thread_id == tid)).Pairwise
        (fun a b => a.created_at ≤ b.created_at) →
      getMessagesByThread st tid limit offset =
        (((st.messages.filter (fun m => m.thread_id == tid)).drop offset).take limit) ∧
      (getMessagesByThread st tid limit offset).Pairwise
        (fun a b => a.created_at ≤ b.created_at) := by
  intro st tid limit offset hmono
  have hsorted : (st.messages.filter (fun m => m.thread_id == tid)).insertionSort
      (fun a b => a.created_at ≤ b.created_at) =
      st.messages.filter (fun m => m.thread_id == tid) :=
    List.Sorted.insertionSort_eq hmono
  constructor
  · unfold getMessagesByThread
    rw [hsorted]
  · unfold getMessagesByThread
    rw [hsorted]
    exact List.Pairwise.sublist
      ((List.take_sublist _ _).trans (List.drop_sublist _ _)) hmono

/-- Witness for C8: a two-message thread comes back whole, in insertion
order. -/
theorem listMessages_insertion_order_witness :
    getMessagesByThread
      ⟨[⟨"t1", "Chat", 0⟩],
       [⟨"m1", "t1", .user, "Hi", 1⟩, ⟨"m2", "t1", .assistant, "Hello", 2⟩]⟩
      "t1" 200 0 =
      [⟨"m1", "t1", .user, "Hi", 1⟩, ⟨"m2", "t1", .assistant, "Hello", 2⟩] := by
  have h := (listMessages_insertion_order
    ⟨[⟨"t1", "Chat", 0⟩],
     [⟨"m1", "t1", .user, "Hi", 1⟩, ⟨"m2", "t1", .assistant, "Hello", 2⟩]⟩
    "t1" 200 0 (by decide)).1
  rw [h]
  decide

/-! ## Claims C3 and C4 — engine lemmas -/

lemma assocGet_assocSet_self {l : List (String × Sheet)} {k : String} {s : Sheet}
    (h : assocGet l k = some s) (v : Sheet) :
    assocGet (assocSet l k v) k = some v := by
  induction l with
  | nil => simp [assocGet] at h
  | cons hd rest ih =>
      obtain ⟨k1, s1⟩ := hd
      by_cases hk : k1 = k
      · subst hk
        simp [assocGet, assocSet]
      · simp only [assocGet, assocSet, hk, if_false] at h ⊢
        exact ih h

lemma assocSet_map_fst (l : List (String × Sheet)) (k : String) (v : Sheet) :
    (assocSet l k v).map Prod.fst = l.map Prod.fst := by
  induction l with
  | nil => rfl
  | cons hd rest ih =>
      obtain ⟨k1, s1⟩ := hd
      by_cases hk : k1 = k
      · subst hk
        simp [assocSet]
      · simp only [assocSet, hk, if_false, List.map_cons, ih]

lemma getSheet_some_ok {wb : Workbook} {t : String} {sheet : Sheet}
    (h : getSheet wb (some t) = .ok sheet) :
    t ≠ "" ∧ assocGet wb.sheets t = some sheet := by
  unfold getSheet at h
  dsimp only at h
  by_cases ht : t = ""
  · rw [if_pos ht] at h
    cases h
  · rw [if_neg ht] at h
    refine ⟨ht, ?_⟩
    cases hg : assocGet wb.sheets t with
    | none => rw [hg] at h; cases h
    | some s =>
        rw [hg] at h
        cases h
        rfl

lemma getSheet_some_ok_of {wb : Workbook} {t : String} {sheet : Sheet}
    (ht : t ≠ "") (hg : assocGet wb.sheets t = some sheet) :
    getSheet wb (some t) = .ok sheet := by
  unfold getSheet
  dsimp only
  rw [if_neg ht, hg]

/-- Success of `getSheet` at the resolved name implies the same success at
the original optional name (the resolution the reading side performs). -/
lemma getSheet_of_resolved_ok {wb : Workbook} {n : Option String} {sheet : Sheet}
    (h : getSheet wb (some (resolvedName wb n)) = .ok sheet) :
    getSheet wb n = .ok sheet := by
  cases n with
  | some m => exact h
  | none =>
      obtain ⟨hne, hget⟩ := getSheet_some_ok h
      unfold getSheet
      dsimp only
      cases hh : (wb.sheets.map Prod.fst).head? with
      | none =>
          exfalso
          cases hxs : wb.sheets with
          | nil =>
              rw [hxs] at hget
              simp [assocGet] at hget
          | cons hd tl =>
              rw [hxs] at hh
              simp at hh
      | some k0 =>
          have hres : resolvedName wb none = k0 := by
            unfold resolvedName
            rw [hh]
            rfl
          dsimp only
          rw [if_neg (hres ▸ hne), ← hres, hget]

/-- The resolved sheet of the written-back workbook is the updated sheet. -/
lemma getSheet_after_set {wb : Workbook} {n : Option String} {sheet : Sheet}
    (sheet' : Sheet)
    (h : getSheet wb (some (resolvedName wb n)) = .ok sheet) :
    getSheet ⟨assocSet wb.sheets (resolvedName wb n) sheet'⟩ n = .ok sheet' := by
  obtain ⟨hne, hget⟩ := getSheet_some_ok h
  have hget' : assocGet (assocSet wb.sheets (resolvedName wb n) sheet')
      (resolvedName wb n) = some sheet' := assocGet_assocSet_self hget sheet'
  cases n with
  | some m => exact getSheet_some_ok_of hne hget'
  | none =>
      have hkeys : (assocSet wb.sheets (resolvedName wb none) sheet').map Prod.fst
          = wb.sheets.map Prod.fst := assocSet_map_fst _ _ _
      unfold getSheet
      dsimp only
      rw [hkeys]
      cases hh : (wb.sheets.map Prod.fst).head? with
      | none =>
          exfalso
          cases hxs : wb.sheets with
          | nil =>
              rw [hxs] at hget
              simp [assocGet] at hget
          | cons hd tl =>
              rw [hxs] at hh
              simp at hh
      | some k0 =>
          have hres : resolvedName wb none = k0 := by
            unfold resolvedName
            rw [hh]
            rfl
          dsimp only
          rw [if_neg (hres ▸ hne), ← hres, hget']

/-- The successful `updateCell` transition, in closed form. -/
lemma updateCell_ok_eq {wb : Workbook} {n : Option String} {sheet : Sheet}
    (a : Addr) (v : CellValue)
    (hg : getSheet wb (some (resolvedName wb n)) = .ok sheet) :
    updateCell a v n (some wb) =
      (some ⟨assocSet wb.sheets (resolvedName wb n) (updatedSheet sheet a v)⟩,
       .ok { sheet := resolvedName wb n, cell := a,
             previous := normalizeCellValue (sheet.cells a), updated := v }) := by
  simp only [updateCell, hg]

lemma updateCell_error_eq {wb : Workbook} {n : Option String} {e : String}
    (a : Addr) (v : CellValue)
    (hg : getSheet wb (some (resolvedName wb n)) = .error e) :
    updateCell a v n (some wb) = (some wb, .error e) := by
  simp only [updateCell, hg]

lemma natRangeIncl_self (x : Nat) : natRangeIncl x x = [x] := by
  unfold natRangeIncl
  rw [show x + 1 - x = 1 from by omega]
  rw [show List.range 1 = [0] from rfl]
  simp

/-- `writeCell` then `readRange` on the singleton range of the written cell,
as one composite observation on the document state. -/
def writeThenRead (cell : Addr) (value : CellValue) (sheetName : Option String)
    (doc : DocState) : Except String (List (List CellValue)) :=
  match updateCell cell value sheetName doc with
  | (doc2, .ok _) => (getRange ⟨cell, cell⟩ sheetName doc2).map (fun rr => rr.values)
  | (_, .error e) => .error e

/-- C3: whenever `writeCell(cell, v, sheet)` succeeds, a subsequent
`readRange` on the range containing exactly that cell yields a 1×1 grid
holding exactly `v` — the exact round-trip for string/number/boolean values,
and `null` for a deleting write (the cell reads back as absent). -/
theorem writeCell_readRange_roundtrip :
    ∀ (doc : DocState) (a : Addr) (v : CellValue) (n : Option String),
      (updateCell a v n doc).2.isOk = true →
      writeThenRead a v n doc = .ok [[v]] := by
  intro doc a v n h
  obtain ⟨ar, ac⟩ := a
  cases doc with
  | none => simp [updateCell, Except.isOk, Except.toBool] at h
  | some wb =>
      cases hg : getSheet wb (some (resolvedName wb n)) with
      | error e =>
          rw [updateCell_error_eq _ v hg] at h
          simp [Except.isOk, Except.toBool] at h
      | ok sheet =>
          have hupd := updateCell_ok_eq ⟨ar, ac⟩ v hg
          have hg' := getSheet_after_set (updatedSheet sheet ⟨ar, ac⟩ v) hg
          unfold writeThenRead
          rw [hupd]
          dsimp only
          simp only [getRange, hg']
          simp only [natRangeIncl_self, List.map_cons, List.map_nil, Except.map]
          cases v with
          | null => simp [updatedSheet, normalizeCellValue]
          | s x => simp [updatedSheet, normalizeCellValue, storedOf, cellTypeOf]
          | n x => simp [updatedSheet, normalizeCellValue, storedOf, cellTypeOf]
          | b x => simp [updatedSheet, normalizeCellValue, storedOf, cellTypeOf]

/-- Witness for C3: writing "hello" into the empty sample workbook and
reading it back. -/
theorem writeCell_readRange_roundtrip_witness :
    ((updateCell ⟨0, 0⟩ (CellValue.s "hello") none sampleDoc).2.isOk = true) ∧
    writeThenRead ⟨0, 0⟩ (CellValue.s "hello") none sampleDoc =
      .ok [[CellValue.s "hello"]] :=
  ⟨rfl, writeCell_readRange_roundtrip sampleDoc ⟨0, 0⟩ (CellValue.s "hello") none rfl⟩

/-! ## Claim C4 — used-range monotonicity and minimality -/

/-- Membership of an address in a decoded range rectangle. -/
def inRange (rg : Range) (x : Addr) : Prop :=
  rg.s.r ≤ x.r ∧ x.r ≤ rg.e.r ∧ rg.s.c ≤ x.c ∧ x.c ≤ rg.e.c

instance (rg : Range) (x : Addr) : Decidable (inRange rg x) := by
  unfold inRange
  infer_instance

/-- Membership in an optional used range (an absent `!ref` contains no
address). -/
def inUsed (o : Option Range) (x : Addr) : Prop :=
  ∃ rg, o = some rg ∧ inRange rg x

/-- The used range (`!ref`) of the sheet that `sheetName` resolves to. -/
def usedRangeOf (doc : DocState) (sheetName : Option String) : Option Range :=
  match doc with
  | none => none
  | some wb =>
      match getSheet wb sheetName with
      | .ok sheet => sheet.ref
      | .error _ => none

lemma extendRange_spec (rg : Range) (a : Addr) :
    (extendRange rg a).s.r = min rg.s.r a.r ∧
    (extendRange rg a).s.c = min rg.s.c a.c ∧
    (extendRange rg a).e.r = max rg.e.r a.r ∧
    (extendRange rg a).e.c = max rg.e.c a.c := by
  unfold extendRange
  by_cases h1 : a.r < rg.s.r <;> by_cases h2 : a.c < rg.s.c <;>
    by_cases h3 : rg.e.r < a.r <;> by_cases h4 : rg.e.c < a.c <;>
    simp [h1, h2, h3, h4] <;> omega

lemma inRange_extend_self (rg : Range) (a : Addr) :
    inRange (extendRange rg a) a := by
  obtain ⟨e1, e2, e3, e4⟩ := extendRange_spec rg a
  unfold inRange
  omega

lemma inRange_extend_mono {rg : Range} {x : Addr} (a : Addr)
    (h : inRange rg x) : inRange (extendRange rg a) x := by
  obtain ⟨e1, e2, e3, e4⟩ := extendRange_spec rg a
  unfold inRange at h ⊢
  omega

lemma extend_minimal {rg0 : Range}
    (hwf : rg0.s.r ≤ rg0.e.r ∧ rg0.s.c ≤ rg0.e.c)
    (a : Addr) {rg2 : Range} (ha : inRange rg2 a)
    (hall : ∀ x, inRange rg0 x → inRange rg2 x) :
    ∀ x, inRange (extendRange rg0 a) x → inRange rg2 x := by
  intro x hx
  have hc1 := hall ⟨rg0.s.r, rg0.s.c⟩ (by unfold inRange; dsimp; omega)
  have hc2 := hall ⟨rg0.e.r, rg0.e.c⟩ (by unfold inRange; dsimp; omega)
  obtain ⟨e1, e2, e3, e4⟩ := extendRange_spec rg0 a
  unfold inRange at ha hc1 hc2 hx ⊢
  dsimp at hc1 hc2
  omega

/-- The growth/minimality facts about one sheet-level extension step. -/
lemma grows_minimal_core (sheet : Sheet) (a : Addr)
    (hwf : ∀ rg, sheet.ref = some rg → rg.s.r ≤ rg.e.r ∧ rg.s.c ≤ rg.e.c) :
    (∀ x, inUsed sheet.ref x →
        inUsed (some (extendRange (sheet.ref.getD ⟨a, a⟩) a)) x) ∧
    inRange (extendRange (sheet.ref.getD ⟨a, a⟩) a) a ∧
    (∀ x, inUsed sheet.ref x → inRange (extendRange (sheet.ref.getD ⟨a, a⟩) a) x) ∧
    (∀ rg2, inRange rg2 a → (∀ x, inUsed sheet.ref x → inRange rg2 x) →
      ∀ x, inRange (extendRange (sheet.ref.getD ⟨a, a⟩) a) x → inRange rg2 x) := by
  cases href : sheet.ref with
  | none =>
      refine ⟨?_, inRange_extend_self _ _, ?_, ?_⟩
      · rintro x ⟨rg, hrg, -⟩
        cases hrg
      · rintro x ⟨rg, hrg, -⟩
        cases hrg
      · intro rg2 ha hall x hx
        refine extend_minimal ⟨le_refl _, le_refl _⟩ a ha ?_ x hx
        intro y hy
        unfold inRange at ha hy ⊢
        dsimp at hy
        omega
  | some rg0 =>
      have hwf0 := hwf rg0 href
      refine ⟨?_, inRange_extend_self _ _, ?_, ?_⟩
      · rintro x ⟨rg, hrg, hx⟩
        cases hrg
        exact ⟨_, rfl, inRange_extend_mono a hx⟩
      · rintro x ⟨rg, hrg, hx⟩
        cases hrg
        exact inRange_extend_mono a hx
      · intro rg2 ha hall x hx
        refine extend_minimal hwf0 a ha ?_ x hx
        intro y hy
        exact hall y ⟨rg0, rfl, hy⟩

/-- C4: a successful write never shrinks the used range (every address of
the old range lies in the new one), and after a successful non-null write
the used range is exactly the smallest rectangle containing every
previously-included address plus the written address (the singleton of the
written address when no used range existed).  The well-formedness premise
records that a decoded `!ref` range has start ≤ end, which holds of every
A1-decoded range. -/
theorem usedRange_grows_minimal :
    ∀ (doc : DocState) (a : Addr) (v : CellValue) (n : Option String),
      (updateCell a v n doc).2.isOk = true →
      (∀ rg, usedRangeOf doc n = some rg → rg.s.r ≤ rg.e.r ∧ rg.s.c ≤ rg.e.c) →
      ((∀ x, inUsed (usedRangeOf doc n) x →
          inUsed (usedRangeOf (updateCell a v n doc).1 n) x) ∧
       (v ≠ .null →
         ∃ rg, usedRangeOf (updateCell a v n doc).1 n = some rg ∧
           inRange rg a ∧
           (∀ x, inUsed (usedRangeOf doc n) x → inRange rg x) ∧
           (∀ rg2, inRange rg2 a →
             (∀ x, inUsed (usedRangeOf doc n) x → inRange rg2 x) →
             ∀ x, inRange rg x → inRange rg2 x))) := by
  intro doc a v n h hwf
  cases doc with
  | none => simp [updateCell, Except.isOk, Except.toBool] at h
  | some wb =>
      cases hg : getSheet wb (some (resolvedName wb n)) with
      | error e =>
          rw [updateCell_error_eq _ v hg] at h
          simp [Except.isOk, Except.toBool] at h
      | ok sheet =>
          have hupd := updateCell_ok_eq a v hg
          have hg' := getSheet_after_set (updatedSheet sheet a v) hg
          have hgn := getSheet_of_resolved_ok hg
          have hbefore : usedRangeOf (some wb) n = sheet.ref := by
            unfold usedRangeOf
            dsimp only
            rw [hgn]
          have hafter : usedRangeOf (updateCell a v n (some wb)).1 n
              = (updatedSheet sheet a v).ref := by
            rw [hupd]
            unfold usedRangeOf
            dsimp only
            rw [hg']
          rw [hbefore] at hwf
          rw [hbefore, hafter]
          cases v with
          | null =>
              rw [show (updatedSheet sheet a .null).ref = sheet.ref from rfl]
              exact ⟨fun x hx => hx, fun hv => absurd rfl hv⟩
          | s str =>
              obtain ⟨hmono, hself, hall, hmin⟩ := grows_minimal_core sheet a hwf
              rw [show (updatedSheet sheet a (.s str)).ref
                    = some (extendRange (sheet.ref.getD ⟨a, a⟩) a) from rfl]
              exact ⟨hmono, fun _ => ⟨_, rfl, hself, hall, hmin⟩⟩
          | n num =>
              obtain ⟨hmono, hself, hall, hmin⟩ := grows_minimal_core sheet a hwf
              rw [show (updatedSheet sheet a (.n num)).ref
                    = some (extendRange (sheet.ref.getD ⟨a, a⟩) a) from rfl]
              exact ⟨hmono, fun _ => ⟨_, rfl, hself, hall, hmin⟩⟩
          | b bv =>
              obtain ⟨hmono, hself, hall, hmin⟩ := grows_minimal_core sheet a hwf
              rw [show (updatedSheet sheet a (.b bv)).ref
                    = some (extendRange (sheet.ref.getD ⟨a, a⟩) a) from rfl]
              exact ⟨hmono, fun _ => ⟨_, rfl, hself, hall, hmin⟩⟩

/-- Witness for C4: writing the number 7 at row 2 / column 3 of the empty
sample workbook. -/
theorem usedRange_grows_minimal_witness :
    ((updateCell ⟨2, 3⟩ (CellValue.n 7) none sampleDoc).2.isOk = true) ∧
    (∃ rg, usedRangeOf (updateCell ⟨2, 3⟩ (CellValue.n 7) none sampleDoc).1 none
        = some rg ∧
      inRange rg ⟨2, 3⟩ ∧
      (∀ x, inUsed (usedRangeOf sampleDoc none) x → inRange rg x) ∧
      (∀ rg2, inRange rg2 ⟨2, 3⟩ →
        (∀ x, inUsed (usedRangeOf sampleDoc none) x → inRange rg2 x) →
        ∀ x, inRange rg x → inRange rg2 x)) :=
  ⟨rfl,
   (usedRange_grows_minimal sampleDoc ⟨2, 3⟩ (CellValue.n 7) none rfl
      (fun rg hrg => Option.noConfusion
        ((show usedRangeOf sampleDoc none = (none : Option Range) from rfl) ▸ hrg))).2
     (by decide)⟩

end Spec2Proof
